import Mathlib

set_option linter.unusedVariables false
set_option linter.unreachableTactic false
set_option linter.unusedTactic false
set_option maxHeartbeats 1000000

namespace EnsureApiEnabled

/-! Shallow embedding of the API-enablement checker module: the enablement
cache, the status query, the enable call, and the bounded poll/retry loop.
Network traffic is modelled by oracle queues of responses carried in an
explicit world state; every issued call is recorded in a trace. -/

/-- Character-list test: the first list occurs at the head of the second. -/
def leadEq : List Char → List Char → Bool
  | [], _ => true
  | _ :: _, [] => false
  | a :: as, b :: bs => a == b && leadEq as bs

/-- Occurrence of one character list anywhere inside another. -/
def occursInL (need : List Char) : List Char → Bool
  | [] => leadEq need []
  | c :: t => leadEq need (c :: t) || occursInL need t

/-- Substring occurrence on strings. -/
def occursIn (hay need : String) : Bool := occursInL need.data hay.data

/-- String.startsWith, expressed over character lists so that it evaluates in
the kernel. -/
def strStartsWith (s t : String) : Bool := leadEq t.data s.data

/-- Modelled from the spec: the WHATWG URL constructor used by check and ensure
is a platform builtin that is not part of the sources. The spec says a service
name "may be derived from a full URL by extracting its host component". An
absolute URL is modelled as a nonempty alphabetic scheme, the separator "://",
and a nonempty host read up to the first delimiter (hosts are lowercased);
any other shape fails to parse, as the URL constructor throws. -/
def schemeSplit : List Char → List Char → Option (List Char)
  | acc, ':' :: '/' :: '/' :: rest => if acc.isEmpty then none else some rest
  | acc, c :: rest => if c.isAlpha then schemeSplit (acc ++ [c]) rest else none
  | _, [] => none

def isHostDelim (c : Char) : Bool := c == '/' || c == ':' || c == '?' || c == '#'

def parseURLHostname (s : String) : Option String :=
  match schemeSplit [] s.data with
  | none => none
  | some rest =>
    let host := rest.takeWhile (fun c => !isHostDelim c)
    if host.isEmpty then none else some (String.mk (host.map Char.toLower))

/-- Error payload of a failed API call: the message, the status field found at
context.body.error.status, and whether the response carries the
billing-restriction marker recognised by isBillingError (defined in error.ts,
outside the sources; modelled from the spec as the billing-plan error kind). -/
structure ErrInfo where
  message : String
  status : Option String
  billing : Bool
deriving DecidableEq

/-- A thrown value: a URL-parsing TypeError, a FirebaseError built from a
message, or a re-raised API error. -/
inductive Err where
  | urlParse (input : String)
  | firebase (message : String)
  | api (info : ErrInfo)
deriving DecidableEq

deriving instance DecidableEq for Except

/-- World state threaded through the operations: the configstore value under
the apiEnablementCache key, the oracle queues of pending network responses,
the trace of issued calls with their responses, and the logs, telemetry
events and sleeps performed. -/
structure World where
  cache : List ((String × String) × Bool)
  getQueue : List (Except ErrInfo String)
  enableQueue : List (Except ErrInfo Unit)
  getCalls : List ((String × String) × Except ErrInfo String)
  enableCalls : List ((String × String) × Except ErrInfo Unit)
  logs : List (String × String)
  events : List (String × String)
  sleeps : List Nat
deriving DecidableEq

/-- Lookup in the two-level projectId -> serviceName -> bool mapping,
flattened to an association list keyed by the pair. -/
def lookupCache (cache : List ((String × String) × Bool)) (p a : String) :
    Option Bool :=
  (cache.find? (fun e => e.1 == (p, a))).map (fun e => e.2)

/-- checkAPIEnablementCache: double-bang of cache?.[projectId]?.[apiName]. -/
def checkAPIEnablementCache (w : World) (projectId apiName : String) : Bool :=
  (lookupCache w.cache projectId apiName).getD false

/-- cacheEnabledAPI: set cache[projectId][apiName] = true, keeping all other
entries, and store the result back. -/
def cacheEnabledAPI (projectId apiName : String) (w : World) : World :=
  { w with cache := ((projectId, apiName), true) ::
      w.cache.filter (fun e => !(e.1 == (projectId, apiName))) }

/-- Modelled network primitive for apiClient.get on the service status. The
next response comes from the oracle queue; an exhausted queue behaves as a
transport failure. The call and its response are recorded in the trace. -/
def apiGet (projectId apiName : String) (w : World) :
    Except ErrInfo String × World :=
  match w.getQueue with
  | [] =>
    let e : ErrInfo := ⟨"transport failure", none, false⟩
    (.error e,
      { w with getCalls := w.getCalls ++ [((projectId, apiName), .error e)] })
  | r :: rest =>
    (r, { w with
            getQueue := rest
            getCalls := w.getCalls ++ [((projectId, apiName), r)] })

/-- Modelled network primitive for apiClient.post on the enable endpoint. -/
def apiPost (projectId apiName : String) (w : World) :
    Except ErrInfo Unit × World :=
  match w.enableQueue with
  | [] =>
    let e : ErrInfo := ⟨"transport failure", none, false⟩
    (.error e,
      { w with enableCalls := w.enableCalls ++ [((projectId, apiName), .error e)] })
  | r :: rest =>
    (r, { w with
            enableQueue := rest
            enableCalls := w.enableCalls ++ [((projectId, apiName), r)] })

/-- Modelled from the spec: colorette bold is a display decoration; with
colors disabled it is the identity on the text. -/
def bold (s : String) : String := s

def addLog (label msg : String) (w : World) : World :=
  { w with logs := w.logs ++ [(label, msg)] }

/-- trackGA4 fire-and-forget telemetry: failures never propagate, so it is a
pure event append. -/
def trackGA4 (name param : String) (w : World) : World :=
  { w with events := w.events ++ [(name, param)] }

def sleep (ms : Nat) (w : World) : World :=
  { w with sleeps := w.sleeps ++ [ms] }

structure PollSettings where
  pollInterval : Nat
  pollsBeforeRetry : Nat
deriving DecidableEq

def POLL_SETTINGS : PollSettings := { pollInterval := 10000, pollsBeforeRetry := 12 }

/-- Hostname extraction at the top of check and ensure:
apiUri.startsWith("http") ? new URL(apiUri).hostname : apiUri, where the URL
constructor throws on unparseable input. -/
def normalizeApiName (apiUri : String) : Except Err String :=
  if strStartsWith apiUri "http" then
    match parseURLHostname apiUri with
    | some h => .ok h
    | none => .error (.urlParse apiUri)
  else .ok apiUri

/-- Body of check after hostname extraction: consult the cache, otherwise
issue the status query, compare the state field against "ENABLED", log on
success, and cache a positive result. -/
def checkNamed (projectId apiName pre : String) (silent : Bool) (w : World) :
    Except Err Bool × World :=
  if checkAPIEnablementCache w projectId apiName then (.ok true, w)
  else
    match apiGet projectId apiName w with
    | (.error e, w1) => (.error (.api e), w1)
    | (.ok state, w1) =>
      let isEnabled := state == "ENABLED"
      let w2 := if isEnabled && !silent then
          addLog pre ("required API " ++ bold apiName ++ " is enabled") w1
        else w1
      let w3 := if isEnabled then cacheEnabledAPI projectId apiName w2 else w2
      (.ok isEnabled, w3)

/-- check: extract the hostname, then run the cache/status-query body. -/
def check (projectId apiUri pre : String) (silent : Bool) (w : World) :
    Except Err Bool × World :=
  match normalizeApiName apiUri with
  | .error e => (.error e, w)
  | .ok apiName => checkNamed projectId apiName pre silent w

def isPermissionError (e : ErrInfo) : Bool :=
  e.status == some "PERMISSION_DENIED"

/-- Modelled from the spec: isBillingError is defined in error.ts, outside the
sources; the spec describes it as recognising a billing-plan restriction. -/
def isBillingError (e : ErrInfo) : Bool := e.billing

def svcChar (c : Char) : Bool :=
  c == '.' || ('a' ≤ c && c ≤ 'z') || ('A' ≤ c && c ≤ 'Z')

def permLit : List Char := "Permission denied to enable service [".data

/-- One attempted match of the regex
Permission denied to enable service \\[([.a-zA-Z]+)\\] at a fixed position:
the literal, then a nonempty run of dot-or-letter characters, then a closing
bracket; the run is the capture. -/
def execPermAt (cs : List Char) : Option String :=
  if leadEq permLit cs then
    let rest := cs.drop permLit.length
    let run := rest.takeWhile svcChar
    match run, rest.drop run.length with
    | _ :: _, ']' :: _ => some (String.mk run)
    | _, _ => none
  else none

/-- Leftmost match of the permission-denied service pattern, as RegExp.exec
on a pattern without anchors. -/
def apiPermissionDeniedExecL : List Char → Option String
  | [] => none
  | c :: t =>
    match execPermAt (c :: t) with
    | some r => some r
    | none => apiPermissionDeniedExecL t

def apiPermissionDeniedExec (message : String) : Option String :=
  apiPermissionDeniedExecL message.data

def billingErrorMsg (projectId apiName : String) : String :=
  "Your project " ++ bold projectId ++
    (" must be on the Blaze (pay-as-you-go) plan to complete this command. Required API " ++
      (bold apiName ++
        (" can\x27t be enabled until the upgrade is complete. To upgrade, visit the following URL:\n\n" ++
          ("https://console.firebase.google.com/project/" ++
            (projectId ++ "/usage/details")))))

def permissionRewriteMsg (serviceUrl projectId : String) : String :=
  "Permissions denied enabling " ++ serviceUrl ++
    ".\n        Please ask a project owner to visit the following URL to enable this service:\n        \n        " ++
    ("https://console.cloud.google.com/apis/library/" ++
      (serviceUrl ++ ("?project=" ++ projectId)))

def timeoutMsg (apiName : String) : String :=
  "Timed out waiting for API " ++ bold apiName ++
    " to enable. Please try again in a few minutes."

/-- enable: one POST to the enable endpoint; on success the result is cached;
a billing error becomes a FirebaseError with the upgrade URL; a
permission-denied error has its message rewritten in place when the blocked
service can be parsed out of it; anything else is re-raised unchanged. -/
def enable (projectId apiName : String) (w : World) : Except Err Unit × World :=
  match apiPost projectId apiName w with
  | (.ok _, w1) => (.ok (), cacheEnabledAPI projectId apiName w1)
  | (.error err, w1) =>
    if isBillingError err then
      (.error (.firebase (billingErrorMsg projectId apiName)), w1)
    else if isPermissionError err then
      match apiPermissionDeniedExec err.message with
      | some serviceUrl =>
        (.error (.api { err with message := permissionRewriteMsg serviceUrl projectId }), w1)
      | none => (.error (.api err), w1)
    else (.error (.api err), w1)

mutual

/-- pollCheckEnabled: past the poll budget, force another enable attempt;
otherwise sleep one interval, re-check, emit telemetry and stop when enabled,
else log a waiting line and poll again. -/
def pollCheckEnabled (projectId apiName pre : String) (silent : Bool)
    (enablementRetries pollRetries : Nat) (w : World) : Except Err Unit × World :=
  if h : pollRetries > POLL_SETTINGS.pollsBeforeRetry then
    enableApiWithRetries projectId apiName pre silent (enablementRetries + 1) w
  else
    let w1 := sleep POLL_SETTINGS.pollInterval w
    match check projectId apiName pre silent w1 with
    | (.error e, w2) => (.error e, w2)
    | (.ok true, w2) => (.ok (), trackGA4 "api_enabled" apiName w2)
    | (.ok false, w2) =>
      let w3 := if !silent then
          addLog pre ("waiting for API " ++ bold apiName ++ " to activate...") w2
        else w2
      pollCheckEnabled projectId apiName pre silent enablementRetries (pollRetries + 1) w3
termination_by 50 - 25 * (enablementRetries + 1) + (14 - pollRetries) + 1
decreasing_by
  all_goals
    first
      | omega
      | (simp only [POLL_SETTINGS] at h; omega)

/-- enableApiWithRetries: more than one retry means timeout; otherwise enable
once and start a fresh poll cycle with pollRetries reset to 0. -/
def enableApiWithRetries (projectId apiName pre : String) (silent : Bool)
    (enablementRetries : Nat) (w : World) : Except Err Unit × World :=
  if h : enablementRetries > 1 then
    (.error (.firebase (timeoutMsg apiName)), w)
  else
    match enable projectId apiName w with
    | (.error e, w1) => (.error e, w1)
    | (.ok _, w1) => pollCheckEnabled projectId apiName pre silent enablementRetries 0 w1
termination_by 50 - 25 * enablementRetries
decreasing_by
  all_goals
    first
      | omega
      | (simp only [POLL_SETTINGS] at h; omega)

end

/-- ensure: normalize, log intent, check; done if enabled, otherwise warn and
start the enable-with-retries sequence. -/
def ensure (projectId apiUri pre : String) (silent : Bool) (w : World) :
    Except Err Unit × World :=
  match normalizeApiName apiUri with
  | .error e => (.error e, w)
  | .ok hostname =>
    let w1 := if !silent then
        addLog pre ("ensuring required API " ++ bold hostname ++ " is enabled...") w
      else w
    match check projectId hostname pre silent w1 with
    | (.error e, w2) => (.error e, w2)
    | (.ok true, w2) => (.ok (), w2)
    | (.ok false, w2) =>
      let w3 := if !silent then
          addLog pre ("missing required API " ++ bold hostname ++ ". Enabling now...") w2
        else w2
      enableApiWithRetries projectId hostname pre silent 0 w3

/-- bestEffortEnsure: run ensure and downgrade any thrown error to a
debug-level log line. -/
def bestEffortEnsure (projectId apiUri pre : String) (silent : Bool) (w : World) :
    Except Err Unit × World :=
  match ensure projectId apiUri pre silent w with
  | (.ok _, w1) => (.ok (), w1)
  | (.error _, w1) =>
    (.ok (), addLog "debug"
      ("Unable to check that " ++ apiUri ++ " is enabled on " ++ projectId ++
        ". Calls to it will fail if it is not enabled") w1)

/-- enableApiURI: the console library link for manual enablement. -/
def enableApiURI (projectId apiName : String) : String :=
  "https://console.cloud.google.com/apis/library/" ++ apiName ++ "?project=" ++ projectId

/-- Trace predicate: some recorded status query for the pair answered with
state ENABLED. -/
def enabledReported (w : World) (projectId apiName : String) : Bool :=
  w.getCalls.any fun r =>
    r.1 == (projectId, apiName) &&
      (match r.2 with
       | .ok st => st == "ENABLED"
       | .error _ => false)

/-- Trace predicate: some recorded enable request for the pair succeeded. -/
def enableSucceeded (w : World) (projectId apiName : String) : Bool :=
  w.enableCalls.any fun r =>
    r.1 == (projectId, apiName) &&
      (match r.2 with
       | .ok _ => true
       | .error _ => false)

/-- Every positive cache entry is justified by the trace: the pair was either
reported ENABLED by a status query or had a successful enable request. -/
def justified (w : World) : Prop :=
  ∀ p a : String, checkAPIEnablementCache w p a = true →
    enabledReported w p a = true ∨ enableSucceeded w p a = true

/-- Cache evolution: every key either keeps its previous binding or now maps
to true. This rules out writes of false and deletions. -/
def cacheLe (c c' : List ((String × String) × Bool)) : Prop :=
  ∀ p a : String,
    lookupCache c' p a = lookupCache c p a ∨ lookupCache c' p a = some true

/-! Helper lemmas about substring occurrence. -/

theorem leadEq_append (l r : List Char) : leadEq l (l ++ r) = true := by
  induction l with
  | nil => rfl
  | cons c t ih => simp [leadEq, ih]

theorem occursInL_cons {n : List Char} (c : Char) {t : List Char}
    (h : occursInL n t = true) : occursInL n (c :: t) = true := by
  cases t with
  | nil => simp [occursInL] at h ⊢; cases n with
    | nil => simp [leadEq]
    | cons a b => simp [leadEq] at h
  | cons d u => simp [occursInL] at h ⊢; exact Or.inr h

theorem occursInL_right (s : List Char) {t n : List Char}
    (h : occursInL n t = true) : occursInL n (s ++ t) = true := by
  induction s with
  | nil => simpa using h
  | cons c u ih => exact occursInL_cons c ih

theorem occursInL_lead (l r : List Char) : occursInL l (l ++ r) = true := by
  cases l with
  | nil => cases r with
    | nil => rfl
    | cons c t => simp [occursInL, leadEq]
  | cons c t => simp [occursInL, leadEq, leadEq_append]

theorem occursInL_self (l : List Char) : occursInL l l = true := by
  have h := occursInL_lead l []
  simpa using h

/-- A string occurs in any concatenation that carries it as a whole chunk. -/
theorem occursIn_part (a b c : String) : occursIn (a ++ (b ++ c)) b = true := by
  simp only [occursIn, String.data_append]
  exact occursInL_right a.data (occursInL_lead b.data c.data)

theorem occursIn_tail (a b : String) : occursIn (a ++ b) b = true := by
  simp only [occursIn, String.data_append]
  exact occursInL_right a.data (occursInL_self b.data)

/-! Helper lemmas about single steps of the operations. -/

theorem normalize_plain (a : String) (ha : strStartsWith a "http" = false) :
    normalizeApiName a = .ok a := by
  unfold normalizeApiName
  rw [if_neg]
  simp [ha]

theorem normalize_url (u h : String) (hu : strStartsWith u "http" = true)
    (hp : parseURLHostname u = some h) : normalizeApiName u = .ok h := by
  unfold normalizeApiName
  rw [if_pos (by simp [hu]), hp]

theorem checkNamed_cached (p a pre : String) (s : Bool) (w : World)
    (hc : checkAPIEnablementCache w p a = true) :
    checkNamed p a pre s w = (.ok true, w) := by
  unfold checkNamed
  simp [hc]

theorem check_plain (p a pre : String) (s : Bool) (w : World)
    (ha : strStartsWith a "http" = false) :
    check p a pre s w = checkNamed p a pre s w := by
  unfold check
  rw [normalize_plain a ha]

theorem check_cached (p a pre : String) (s : Bool) (w : World)
    (ha : strStartsWith a "http" = false) (hc : checkAPIEnablementCache w p a = true) :
    check p a pre s w = (.ok true, w) := by
  rw [check_plain p a pre s w ha]
  exact checkNamed_cached p a pre s w hc

theorem checkNamed_miss_response (p a pre : String) (s : Bool) (w : World)
    (st : String) (rest : List (Except ErrInfo String))
    (hc : checkAPIEnablementCache w p a = false)
    (hg : w.getQueue = .ok st :: rest) :
    checkNamed p a pre s w =
      (.ok (st == "ENABLED"),
        (let w1 : World := { w with
            getQueue := rest
            getCalls := w.getCalls ++ [((p, a), .ok st)] };
          let w2 := if (st == "ENABLED") && !s then
              addLog pre ("required API " ++ bold a ++ " is enabled") w1
            else w1;
          if (st == "ENABLED") then cacheEnabledAPI p a w2 else w2)) := by
  unfold checkNamed
  rw [if_neg (show ¬ (checkAPIEnablementCache w p a = true) by simp [hc])]
  unfold apiGet
  rw [hg]

theorem checkNamed_miss_err (p a pre : String) (s : Bool) (w : World)
    (e : ErrInfo) (rest : List (Except ErrInfo String))
    (hc : checkAPIEnablementCache w p a = false)
    (hg : w.getQueue = .error e :: rest) :
    checkNamed p a pre s w =
      (.error (.api e),
        { w with getQueue := rest, getCalls := w.getCalls ++ [((p, a), .error e)] }) := by
  unfold checkNamed
  rw [if_neg (show ¬ (checkAPIEnablementCache w p a = true) by simp [hc])]
  unfold apiGet
  rw [hg]

theorem checkNamed_miss_empty (p a pre : String) (s : Bool) (w : World)
    (hc : checkAPIEnablementCache w p a = false)
    (hg : w.getQueue = []) :
    checkNamed p a pre s w =
      (.error (.api ⟨"transport failure", none, false⟩),
        { w with getCalls :=
            w.getCalls ++ [((p, a), .error ⟨"transport failure", none, false⟩)] }) := by
  unfold checkNamed
  rw [if_neg (show ¬ (checkAPIEnablementCache w p a = true) by simp [hc])]
  unfold apiGet
  rw [hg]

theorem enable_ok (p a : String) (w : World) (q : List (Except ErrInfo Unit))
    (hq : w.enableQueue = Except.ok () :: q) :
    enable p a w = (.ok (), cacheEnabledAPI p a
      { w with enableQueue := q, enableCalls := w.enableCalls ++ [((p, a), .ok ())] }) := by
  unfold enable apiPost
  rw [hq]

theorem enable_err (p a : String) (w : World) (e : ErrInfo)
    (q : List (Except ErrInfo Unit))
    (hq : w.enableQueue = Except.error e :: q) :
    enable p a w =
      (let w1 : World :=
        { w with enableQueue := q, enableCalls := w.enableCalls ++ [((p, a), .error e)] };
       if isBillingError e then
         (.error (.firebase (billingErrorMsg p a)), w1)
       else if isPermissionError e then
         match apiPermissionDeniedExec e.message with
         | some serviceUrl =>
           (.error (.api { e with message := permissionRewriteMsg serviceUrl p }), w1)
         | none => (.error (.api e), w1)
       else (.error (.api e), w1)) := by
  unfold enable apiPost
  rw [hq]

theorem checkCache_cacheEnabled (p a : String) (w : World) :
    checkAPIEnablementCache (cacheEnabledAPI p a w) p a = true := by
  simp [checkAPIEnablementCache, cacheEnabledAPI, lookupCache]

theorem pollCheckEnabled_hit (p a pre : String) (s : Bool) (er pr : Nat) (w : World)
    (hpr : pr ≤ 12)
    (ha : strStartsWith a "http" = false)
    (hc : checkAPIEnablementCache w p a = true) :
    pollCheckEnabled p a pre s er pr w =
      (.ok (), trackGA4 "api_enabled" a (sleep POLL_SETTINGS.pollInterval w)) := by
  rw [pollCheckEnabled.eq_def]
  have h12 : ¬ pr > POLL_SETTINGS.pollsBeforeRetry := by
    show ¬ pr > (12 : Nat)
    omega
  rw [dif_neg h12]
  simp only [check_cached p a pre s (sleep POLL_SETTINGS.pollInterval w) ha hc]

/-- Key behaviour of enableApiWithRetries when the first enable call succeeds:
enable itself caches the pair, the first poll re-checks, hits that fresh cache
entry and returns at once, so no status query and no second enable happen. -/
theorem enableApiWithRetries_first_ok (p a pre : String) (s : Bool) (w : World)
    (q : List (Except ErrInfo Unit))
    (hq : w.enableQueue = Except.ok () :: q)
    (ha : strStartsWith a "http" = false) :
    enableApiWithRetries p a pre s 0 w =
      (.ok (), trackGA4 "api_enabled" a (sleep POLL_SETTINGS.pollInterval
        (cacheEnabledAPI p a
          { w with enableQueue := q,
                   enableCalls := w.enableCalls ++ [((p, a), .ok ())] }))) := by
  rw [enableApiWithRetries.eq_def]
  rw [dif_neg (by omega : ¬ (0 : Nat) > 1)]
  rw [enable_ok p a w q hq]
  simp only [pollCheckEnabled_hit p a pre s 0 0 _ (by omega) ha (checkCache_cacheEnabled p a _)]

theorem enable_empty (p a : String) (w : World)
    (hq : w.enableQueue = []) :
    enable p a w =
      (.error (.api ⟨"transport failure", none, false⟩),
        { w with enableCalls :=
            w.enableCalls ++ [((p, a), .error ⟨"transport failure", none, false⟩)] }) := by
  unfold enable apiPost
  rw [hq]
  rfl

/-! Cache-update characterisation. -/

theorem find_filter_ne (l : List ((String × String) × Bool)) (k k' : String × String)
    (hne : ¬ k' = k) :
    List.find? (fun e => e.1 == k') (l.filter (fun e => !(e.1 == k))) =
      List.find? (fun e => e.1 == k') l := by
  induction l with
  | nil => rfl
  | cons e t ih =>
    rw [List.filter_cons]
    by_cases hek : e.1 = k
    · have h1 : (e.1 == k') = false := by
        rw [beq_eq_false_iff_ne]
        intro hcon
        exact hne (by rw [← hcon, hek])
      rw [if_neg (by simp [hek])]
      rw [ih, List.find?_cons_of_neg _ (by simp [h1])]
    · rw [if_pos (by simp [hek])]
      by_cases h2 : e.1 = k'
      · rw [List.find?_cons_of_pos _ (by simp [h2]),
          List.find?_cons_of_pos _ (by simp [h2])]
      · rw [List.find?_cons_of_neg _ (by simp [h2]),
          List.find?_cons_of_neg _ (by simp [h2])]
        exact ih

theorem lookupCache_set (p a p' a' : String) (w : World) :
    lookupCache (cacheEnabledAPI p a w).cache p' a' =
      if (p', a') = (p, a) then some true else lookupCache w.cache p' a' := by
  unfold cacheEnabledAPI lookupCache
  by_cases h : (p', a') = (p, a)
  · rw [if_pos h]
    rw [List.find?_cons_of_pos _ (by simp [h])]
    rfl
  · have h1 : ((p, a) == (p', a')) = false := by
      rw [beq_eq_false_iff_ne]
      intro hcon
      exact h (by rw [hcon])
    rw [if_neg h]
    rw [List.find?_cons_of_neg _ (by simp [h1])]
    rw [find_filter_ne w.cache (p, a) (p', a') h]

theorem cacheLe_refl (c : List ((String × String) × Bool)) : cacheLe c c :=
  fun p a => Or.inl rfl

theorem cacheLe_of_eq (c c' : List ((String × String) × Bool)) (h : c' = c) :
    cacheLe c c' := fun p a => Or.inl (by rw [h])

theorem cacheLe_trans (c1 c2 c3 : List ((String × String) × Bool))
    (h1 : cacheLe c1 c2) (h2 : cacheLe c2 c3) : cacheLe c1 c3 := by
  intro p a
  rcases h2 p a with h | h
  · rw [h]
    exact h1 p a
  · exact Or.inr h

theorem cacheLe_cacheEnabled (p a : String) (w : World) :
    cacheLe w.cache (cacheEnabledAPI p a w).cache := by
  intro p' a'
  rw [lookupCache_set p a p' a' w]
  by_cases h : (p', a') = (p, a)
  · exact Or.inr (by rw [if_pos h])
  · exact Or.inl (by rw [if_neg h])

/-! Trace-monotonicity and justification machinery. -/

theorem enabledReported_mono (w w' : World) (t : List ((String × String) × Except ErrInfo String))
    (h : w'.getCalls = w.getCalls ++ t) (p a : String)
    (hr : enabledReported w p a = true) : enabledReported w' p a = true := by
  unfold enabledReported at hr ⊢
  rw [h, List.any_append, hr]
  rfl

theorem enableSucceeded_mono (w w' : World) (t : List ((String × String) × Except ErrInfo Unit))
    (h : w'.enableCalls = w.enableCalls ++ t) (p a : String)
    (hr : enableSucceeded w p a = true) : enableSucceeded w' p a = true := by
  unfold enableSucceeded at hr ⊢
  rw [h, List.any_append, hr]
  rfl

theorem enabledReported_of_mem (w : World) (p a : String)
    (h : ((p, a), Except.ok "ENABLED") ∈ w.getCalls) :
    enabledReported w p a = true := by
  unfold enabledReported
  rw [List.any_eq_true]
  exact ⟨((p, a), Except.ok "ENABLED"), h, by simp⟩

theorem enableSucceeded_of_mem (w : World) (p a : String)
    (h : ((p, a), Except.ok ()) ∈ w.enableCalls) :
    enableSucceeded w p a = true := by
  unfold enableSucceeded
  rw [List.any_eq_true]
  exact ⟨((p, a), Except.ok ()), h, by simp⟩

/-- Combined step property of every operation: the cache only grows with true
entries, the network traces only grow, and trace-justification of the cache
is preserved. -/
def opOK (w w' : World) : Prop :=
  cacheLe w.cache w'.cache ∧
  (∃ t, w'.getCalls = w.getCalls ++ t) ∧
  (∃ t, w'.enableCalls = w.enableCalls ++ t) ∧
  (justified w → justified w')

theorem opOK_refl (w : World) : opOK w w :=
  ⟨cacheLe_refl _, ⟨[], by simp⟩, ⟨[], by simp⟩, id⟩

theorem opOK_trans (w1 w2 w3 : World) (h1 : opOK w1 w2) (h2 : opOK w2 w3) :
    opOK w1 w3 := by
  obtain ⟨c1, ⟨t1, g1⟩, ⟨u1, e1⟩, j1⟩ := h1
  obtain ⟨c2, ⟨t2, g2⟩, ⟨u2, e2⟩, j2⟩ := h2
  refine ⟨cacheLe_trans _ _ _ c1 c2, ⟨t1 ++ t2, ?_⟩, ⟨u1 ++ u2, ?_⟩, fun h => j2 (j1 h)⟩
  · rw [g2, g1, List.append_assoc]
  · rw [e2, e1, List.append_assoc]

theorem opOK_addLog (l m : String) (w : World) : opOK w (addLog l m w) :=
  ⟨cacheLe_refl _, ⟨[], by simp [addLog]⟩, ⟨[], by simp [addLog]⟩, fun h => h⟩

theorem opOK_trackGA4 (n m : String) (w : World) : opOK w (trackGA4 n m w) :=
  ⟨cacheLe_refl _, ⟨[], by simp [trackGA4]⟩, ⟨[], by simp [trackGA4]⟩, fun h => h⟩

theorem opOK_sleep (ms : Nat) (w : World) : opOK w (sleep ms w) :=
  ⟨cacheLe_refl _, ⟨[], by simp [sleep]⟩, ⟨[], by simp [sleep]⟩, fun h => h⟩

/-- After a world change that only appends an ENABLED status report, caching
the pair preserves all step invariants. -/
theorem opOK_cacheAfterReport (p a : String) (w wbase : World)
    (hcache : wbase.cache = w.cache)
    (hget : wbase.getCalls = w.getCalls ++ [((p, a), Except.ok "ENABLED")])
    (hen : wbase.enableCalls = w.enableCalls) :
    opOK w (cacheEnabledAPI p a wbase) := by
  refine ⟨?_, ⟨[((p, a), Except.ok "ENABLED")], by
      show wbase.getCalls = _
      rw [hget]⟩, ⟨[], by
      show wbase.enableCalls = _
      simp [hen]⟩, ?_⟩
  · have h := cacheLe_cacheEnabled p a wbase
    rw [hcache] at h
    exact h
  · intro hj p' a' hcc
    unfold checkAPIEnablementCache at hcc
    rw [lookupCache_set p a p' a' wbase] at hcc
    by_cases he : (p', a') = (p, a)
    · obtain ⟨hp, ha⟩ := Prod.mk.injEq p' a' p a ▸ he
      subst hp
      subst ha
      refine Or.inl (enabledReported_of_mem _ p' a' ?_)
      show ((p', a'), Except.ok "ENABLED") ∈ wbase.getCalls
      rw [hget]
      simp
    · rw [if_neg he, hcache] at hcc
      rcases hj p' a' hcc with h | h
      · exact Or.inl (enabledReported_mono w _ _ hget p' a' h)
      · exact Or.inr (enableSucceeded_mono w _ [] (by simp [cacheEnabledAPI, hen]) p' a' h)

/-- After a world change that only appends a successful enable request,
caching the pair preserves all step invariants. -/
theorem opOK_cacheAfterEnable (p a : String) (w wbase : World)
    (hcache : wbase.cache = w.cache)
    (hget : wbase.getCalls = w.getCalls)
    (hen : wbase.enableCalls = w.enableCalls ++ [((p, a), Except.ok ())]) :
    opOK w (cacheEnabledAPI p a wbase) := by
  refine ⟨?_, ⟨[], by
      show wbase.getCalls = _
      simp [hget]⟩, ⟨[((p, a), Except.ok ())], by
      show wbase.enableCalls = _
      rw [hen]⟩, ?_⟩
  · have h := cacheLe_cacheEnabled p a wbase
    rw [hcache] at h
    exact h
  · intro hj p' a' hcc
    unfold checkAPIEnablementCache at hcc
    rw [lookupCache_set p a p' a' wbase] at hcc
    by_cases he : (p', a') = (p, a)
    · obtain ⟨hp, ha⟩ := Prod.mk.injEq p' a' p a ▸ he
      subst hp
      subst ha
      refine Or.inr (enableSucceeded_of_mem _ p' a' ?_)
      show ((p', a'), Except.ok ()) ∈ wbase.enableCalls
      rw [hen]
      simp
    · rw [if_neg he, hcache] at hcc
      rcases hj p' a' hcc with h | h
      · exact Or.inl (enabledReported_mono w _ [] (by simp [cacheEnabledAPI, hget]) p' a' h)
      · exact Or.inr (enableSucceeded_mono w _ _ hen p' a' h)

/-- A world change that only consumes a queue and appends trace records (no
cache change) preserves all step invariants. -/
theorem opOK_traceOnly (w w' : World)
    (hcache : w'.cache = w.cache)
    (hget : ∃ t, w'.getCalls = w.getCalls ++ t)
    (hen : ∃ t, w'.enableCalls = w.enableCalls ++ t) :
    opOK w w' := by
  refine ⟨cacheLe_of_eq _ _ hcache, hget, hen, ?_⟩
  intro hj p' a' hcc
  unfold checkAPIEnablementCache at hcc
  rw [hcache] at hcc
  obtain ⟨tg, htg⟩ := hget
  obtain ⟨te, hte⟩ := hen
  rcases hj p' a' hcc with h | h
  · exact Or.inl (enabledReported_mono w _ _ htg p' a' h)
  · exact Or.inr (enableSucceeded_mono w _ _ hte p' a' h)

theorem opOK_checkNamed (p a pre : String) (s : Bool) (w : World) :
    opOK w (checkNamed p a pre s w).2 := by
  by_cases hc : checkAPIEnablementCache w p a = true
  · rw [checkNamed_cached p a pre s w hc]
    exact opOK_refl w
  · have hc' : checkAPIEnablementCache w p a = false := by
      cases hb : checkAPIEnablementCache w p a
      · rfl
      · exact absurd hb hc
    cases hg : w.getQueue with
    | nil =>
      rw [checkNamed_miss_empty p a pre s w hc' hg]
      exact opOK_traceOnly w _ rfl ⟨_, rfl⟩ ⟨[], by simp⟩
    | cons r rest =>
      cases r with
      | error e =>
        rw [checkNamed_miss_err p a pre s w e rest hc' hg]
        exact opOK_traceOnly w _ rfl ⟨_, rfl⟩ ⟨[], by simp⟩
      | ok st =>
        rw [checkNamed_miss_response p a pre s w st rest hc' hg]
        by_cases hen : (st == "ENABLED") = true
        · have hst : st = "ENABLED" := by simpa using hen
          subst hst
          simp only [hen]
          show opOK w (cacheEnabledAPI p a _)
          refine opOK_cacheAfterReport p a w _ ?_ ?_ ?_
          · split <;> rfl
          · split <;> simp [addLog]
          · split <;> rfl
        · have hen' : (st == "ENABLED") = false := by
            cases hb : (st == "ENABLED")
            · rfl
            · exact absurd hb hen
          simp only [hen']
          show opOK w _
          exact opOK_traceOnly w _ rfl ⟨_, rfl⟩ ⟨[], by simp⟩

theorem opOK_check (p u pre : String) (s : Bool) (w : World) :
    opOK w (check p u pre s w).2 := by
  unfold check
  cases hn : normalizeApiName u with
  | error e => exact opOK_refl w
  | ok a => exact opOK_checkNamed p a pre s w

theorem opOK_enable (p a : String) (w : World) :
    opOK w (enable p a w).2 := by
  cases hg : w.enableQueue with
  | nil =>
    rw [enable_empty p a w hg]
    exact opOK_traceOnly w _ rfl ⟨[], by simp⟩ ⟨_, rfl⟩
  | cons r rest =>
    cases r with
    | error e =>
      rw [enable_err p a w e rest hg]
      show opOK w _
      by_cases hb : isBillingError e = true
      · simp only [hb]
        show opOK w _
        exact opOK_traceOnly w _ rfl ⟨[], by simp⟩ ⟨_, rfl⟩
      · have hb' : isBillingError e = false := by
          cases hx : isBillingError e
          · rfl
          · exact absurd hx hb
        simp only [hb']
        by_cases hp : isPermissionError e = true
        · simp only [hp]
          cases hx : apiPermissionDeniedExec e.message with
          | some su =>
            simp only []
            exact opOK_traceOnly w _ rfl ⟨[], by simp⟩ ⟨_, rfl⟩
          | none =>
            simp only []
            exact opOK_traceOnly w _ rfl ⟨[], by simp⟩ ⟨_, rfl⟩
        · have hp' : isPermissionError e = false := by
            cases hx : isPermissionError e
            · rfl
            · exact absurd hx hp
          simp only [hp']
          exact opOK_traceOnly w _ rfl ⟨[], by simp⟩ ⟨_, rfl⟩
    | ok u =>
      cases u
      rw [enable_ok p a w rest hg]
      show opOK w (cacheEnabledAPI p a _)
      exact opOK_cacheAfterEnable p a w _ rfl rfl rfl

/-- Step invariants hold for the mutual poll/retry recursion, by strong
induction on the same measure that proves its termination. -/
theorem opOK_pollEnable (N : Nat) :
    (∀ p a pre s er pr (w : World), 50 - 25 * (er + 1) + (14 - pr) + 1 ≤ N →
        opOK w (pollCheckEnabled p a pre s er pr w).2) ∧
    (∀ p a pre s er (w : World), 50 - 25 * er ≤ N →
        opOK w (enableApiWithRetries p a pre s er w).2) := by
  induction N with
  | zero =>
    constructor
    · intro p a pre s er pr w hm
      omega
    · intro p a pre s er w hm
      have her : er > 1 := by omega
      rw [enableApiWithRetries.eq_def, dif_pos her]
      exact opOK_refl w
  | succ n ih =>
    constructor
    · intro p a pre s er pr w hm
      rw [pollCheckEnabled.eq_def]
      by_cases h12 : pr > POLL_SETTINGS.pollsBeforeRetry
      · rw [dif_pos h12]
        refine ih.2 p a pre s (er + 1) w ?_
        omega
      · rw [dif_neg h12]
        have h12' : pr ≤ 12 := by simpa [POLL_SETTINGS] using h12
        rcases hck : check p a pre s (sleep POLL_SETTINGS.pollInterval w) with ⟨r, w2⟩
        have hw2 : opOK w w2 := by
          have h1 := opOK_sleep POLL_SETTINGS.pollInterval w
          have h2 := opOK_check p a pre s (sleep POLL_SETTINGS.pollInterval w)
          rw [hck] at h2
          exact opOK_trans _ _ _ h1 h2
        cases r with
        | error e =>
          simp only [hck]
          exact hw2
        | ok b =>
          cases b with
          | true =>
            simp only [hck]
            exact opOK_trans _ _ _ hw2 (opOK_trackGA4 _ _ w2)
          | false =>
            simp only [hck]
            refine opOK_trans _ _ _ ?_ (ih.1 p a pre s er (pr + 1) _ ?_)
            · refine opOK_trans _ _ _ hw2 ?_
              split
              · exact opOK_addLog _ _ w2
              · exact opOK_refl w2
            · omega
    · intro p a pre s er w hm
      rw [enableApiWithRetries.eq_def]
      by_cases her : er > 1
      · rw [dif_pos her]
        exact opOK_refl w
      · rw [dif_neg her]
        rcases hen : enable p a w with ⟨r, w1⟩
        have hw1 : opOK w w1 := by
          have h2 := opOK_enable p a w
          rw [hen] at h2
          exact h2
        cases r with
        | error e =>
          simp only [hen]
          exact hw1
        | ok u =>
          cases u
          simp only [hen]
          refine opOK_trans _ _ _ hw1 (ih.1 p a pre s er 0 w1 ?_)
          omega

theorem ensure_unfold_err (p u pre : String) (s : Bool) (w : World) (e : Err)
    (hn : normalizeApiName u = .error e) :
    ensure p u pre s w = (.error e, w) := by
  unfold ensure
  simp only [hn]

theorem ensure_unfold (p u pre : String) (s : Bool) (w : World) (hostname : String)
    (hn : normalizeApiName u = .ok hostname) :
    ensure p u pre s w =
      (let w1 := if (!s) = true then
          addLog pre ("ensuring required API " ++ bold hostname ++ " is enabled...") w
        else w;
       match check p hostname pre s w1 with
       | (.error e, w2) => (.error e, w2)
       | (.ok true, w2) => ((.ok () : Except Err Unit), w2)
       | (.ok false, w2) =>
         let w3 := if (!s) = true then
             addLog pre ("missing required API " ++ bold hostname ++ ". Enabling now...") w2
           else w2;
         enableApiWithRetries p hostname pre s 0 w3) := by
  unfold ensure
  simp only [hn]

theorem opOK_ensure (p u pre : String) (s : Bool) (w : World) :
    opOK w (ensure p u pre s w).2 := by
  cases hn : normalizeApiName u with
  | error e =>
    rw [ensure_unfold_err p u pre s w e hn]
    exact opOK_refl w
  | ok hostname =>
    rw [ensure_unfold p u pre s w hostname hn]
    rcases hck : check p hostname pre s
        (if (!s) = true then
          addLog pre ("ensuring required API " ++ bold hostname ++ " is enabled...") w
        else w) with ⟨r, w2⟩
    have hw2 : opOK w w2 := by
      have h1 : opOK w (if (!s) = true then
          addLog pre ("ensuring required API " ++ bold hostname ++ " is enabled...") w
        else w) := by
        split
        · exact opOK_addLog _ _ w
        · exact opOK_refl w
      have h2 := opOK_check p hostname pre s
        (if (!s) = true then
          addLog pre ("ensuring required API " ++ bold hostname ++ " is enabled...") w
        else w)
      rw [hck] at h2
      exact opOK_trans _ _ _ h1 h2
    simp only [hck]
    cases r with
    | error e => exact hw2
    | ok b =>
      cases b with
      | true => exact hw2
      | false =>
        refine opOK_trans _ _ _ ?_ ((opOK_pollEnable 65).2 p hostname pre s 0 _ (by omega))
        refine opOK_trans _ _ _ hw2 ?_
        split
        · exact opOK_addLog _ _ w2
        · exact opOK_refl w2

theorem opOK_bestEffortEnsure (p u pre : String) (s : Bool) (w : World) :
    opOK w (bestEffortEnsure p u pre s w).2 := by
  unfold bestEffortEnsure
  rcases hen : ensure p u pre s w with ⟨r, w1⟩
  have h : opOK w w1 := by
    have h2 := opOK_ensure p u pre s w
    rw [hen] at h2
    exact h2
  cases r with
  | ok v =>
    cases v
    simp only [hen]
    exact h
  | error e =>
    simp only [hen]
    exact opOK_trans _ _ _ h (opOK_addLog _ _ w1)

theorem check_normalized (p u a pre : String) (s : Bool) (w : World)
    (hn : normalizeApiName u = .ok a) :
    check p u pre s w = checkNamed p a pre s w := by
  unfold check
  simp only [hn]

theorem check_normalized_err (p u pre : String) (s : Bool) (w : World) (e : Err)
    (hn : normalizeApiName u = .error e) :
    check p u pre s w = (.error e, w) := by
  unfold check
  simp only [hn]

theorem checkNamed_enableCalls (p a pre : String) (s : Bool) (w : World) :
    (checkNamed p a pre s w).2.enableCalls = w.enableCalls := by
  by_cases hc : checkAPIEnablementCache w p a = true
  · rw [checkNamed_cached p a pre s w hc]
  · have hc' : checkAPIEnablementCache w p a = false := by
      cases hb : checkAPIEnablementCache w p a
      · rfl
      · exact absurd hb hc
    cases hg : w.getQueue with
    | nil => rw [checkNamed_miss_empty p a pre s w hc' hg]
    | cons r rest =>
      cases r with
      | error e => rw [checkNamed_miss_err p a pre s w e rest hc' hg]
      | ok st =>
        rw [checkNamed_miss_response p a pre s w st rest hc' hg]
        by_cases hen : (st == "ENABLED") = true
        · by_cases hs : (!s) = true
          · simp [hen, hs, cacheEnabledAPI, addLog]
          · have hs' : (!s) = false := by
              cases hb : (!s)
              · rfl
              · exact absurd hb hs
            simp [hen, hs', cacheEnabledAPI, addLog]
        · have hen' : (st == "ENABLED") = false := by
            cases hb : (st == "ENABLED")
            · rfl
            · exact absurd hb hen
          simp [hen', cacheEnabledAPI, addLog]

/-! Additional component lemmas for the check miss path. -/

theorem checkNamed_miss_components (p a pre : String) (s : Bool) (w : World)
    (st : String) (rest : List (Except ErrInfo String))
    (hc : checkAPIEnablementCache w p a = false)
    (hg : w.getQueue = .ok st :: rest) :
    (checkNamed p a pre s w).1 = .ok (st == "ENABLED") ∧
    (checkNamed p a pre s w).2.getCalls = w.getCalls ++ [((p, a), .ok st)] ∧
    (checkNamed p a pre s w).2.cache =
      (if (st == "ENABLED") = true then (cacheEnabledAPI p a w).cache else w.cache) := by
  rw [checkNamed_miss_response p a pre s w st rest hc hg]
  by_cases hen : (st == "ENABLED") = true
  · by_cases hs : (!s) = true
    · simp [hen, hs, cacheEnabledAPI, addLog]
    · have hs' : (!s) = false := by
        cases hb : (!s)
        · rfl
        · exact absurd hb hs
      simp [hen, hs', cacheEnabledAPI, addLog]
  · have hen' : (st == "ENABLED") = false := by
      cases hb : (st == "ENABLED")
      · rfl
      · exact absurd hb hen
    simp [hen', cacheEnabledAPI, addLog]

/-! The claims. -/

def emptyWorld : World := ⟨[], [], [], [], [], [], [], []⟩

/-- Claim C2, amended: when the first enable call of enable_api_with_retries
succeeds, the cache entry that enable itself writes makes the first poll hit
the cache, so exactly one enable request and zero status queries are issued
and the invocation returns successfully; the claimed two-enable, twice-13-poll
timeout path is unreachable in this situation. -/
theorem claim2_theorem (p a pre : String) (s : Bool) (w : World)
    (q : List (Except ErrInfo Unit))
    (hq : w.enableQueue = Except.ok () :: q)
    (ha : strStartsWith a "http" = false) :
    enableApiWithRetries p a pre s 0 w =
      (.ok (), trackGA4 "api_enabled" a (sleep POLL_SETTINGS.pollInterval
        (cacheEnabledAPI p a
          { w with enableQueue := q,
                   enableCalls := w.enableCalls ++ [((p, a), .ok ())] }))) ∧
    (enableApiWithRetries p a pre s 0 w).2.enableCalls =
      w.enableCalls ++ [((p, a), .ok ())] ∧
    (enableApiWithRetries p a pre s 0 w).2.getCalls = w.getCalls := by
  have h := enableApiWithRetries_first_ok p a pre s w q hq ha
  refine ⟨h, ?_, ?_⟩ <;> rw [h] <;> simp [trackGA4, sleep, cacheEnabledAPI]

/-- World for the C2 counterexample: oracle offers two successful enables and
26 polls all answering DISABLED, the situation the claim describes. -/
def w2cex : World :=
  ⟨[], List.replicate 26 (.ok "DISABLED"), [.ok (), .ok ()], [], [], [], [], []⟩

/-- Claim C2, counterexample: in the situation the claim describes (starting
retries at 0, enable calls succeeding, the live service never ENABLED), the
code issues exactly 1 enable request and 0 status polls and returns
successfully, instead of 2 enable requests, 13 polls each and a timeout
error. -/
theorem claim2_cex :
    (enableApiWithRetries "p1" "svc.googleapis.com" "functions" true 0 w2cex).1 =
      .ok () ∧
    (enableApiWithRetries "p1" "svc.googleapis.com" "functions" true 0 w2cex).2.enableCalls.length = 1 ∧
    (enableApiWithRetries "p1" "svc.googleapis.com" "functions" true 0 w2cex).2.getCalls.length = 0 := by
  have h := enableApiWithRetries_first_ok "p1" "svc.googleapis.com" "functions" true
    w2cex [Except.ok ()] rfl (by decide)
  rw [h]
  refine ⟨rfl, ?_, rfl⟩
  decide

def w2wit : World := ⟨[], [], [.ok ()], [], [], [], [], []⟩

theorem claim2_witness :
    (enableApiWithRetries "demo" "pubsub.googleapis.com" "fn" false 0 w2wit).2.enableCalls.length = 1 ∧
    (enableApiWithRetries "demo" "pubsub.googleapis.com" "fn" false 0 w2wit).2.getCalls.length = 0 := by
  have h := claim2_theorem "demo" "pubsub.googleapis.com" "fn" false w2wit [] rfl (by decide)
  rw [h.2.1, h.2.2]
  decide

/-- Claim C3: with a cached enabled entry, check returns true and changes
nothing (no network call); on a cache miss it issues the status query, returns
true exactly when the response state is the literal ENABLED, and writes the
cache entry exactly when the result is true. -/
theorem claim3_theorem (p u a pre : String) (s : Bool) (w : World)
    (hn : normalizeApiName u = .ok a) :
    (checkAPIEnablementCache w p a = true → check p u pre s w = (.ok true, w)) ∧
    (checkAPIEnablementCache w p a = false →
      ∀ st rest, w.getQueue = .ok st :: rest →
        (check p u pre s w).1 = .ok (st == "ENABLED") ∧
        (check p u pre s w).2.getCalls = w.getCalls ++ [((p, a), .ok st)] ∧
        checkAPIEnablementCache (check p u pre s w).2 p a = (st == "ENABLED") ∧
        ((st == "ENABLED") = false → (check p u pre s w).2.cache = w.cache)) := by
  constructor
  · intro hc
    rw [check_normalized p u a pre s w hn]
    exact checkNamed_cached p a pre s w hc
  · intro hc st rest hg
    rw [check_normalized p u a pre s w hn]
    obtain ⟨h1, h2, h3⟩ := checkNamed_miss_components p a pre s w st rest hc hg
    refine ⟨h1, h2, ?_, ?_⟩
    · unfold checkAPIEnablementCache
      rw [h3]
      by_cases hen : (st == "ENABLED") = true
      · rw [if_pos hen, hen]
        have h4 := checkCache_cacheEnabled p a w
        unfold checkAPIEnablementCache at h4
        exact h4
      · have hen' : (st == "ENABLED") = false := by
          cases hb : (st == "ENABLED")
          · rfl
          · exact absurd hb hen
        rw [if_neg hen, hen']
        unfold checkAPIEnablementCache at hc
        exact hc
    · intro hen'
      rw [h3, if_neg (by rw [hen']; exact Bool.false_ne_true)]

def w3hit : World := ⟨[(("p1", "svc.googleapis.com"), true)], [], [], [], [], [], [], []⟩
def w3miss : World := ⟨[], [.ok "ENABLED"], [], [], [], [], [], []⟩

theorem claim3_witness :
    check "p1" "svc.googleapis.com" "fn" true w3hit = (.ok true, w3hit) ∧
    (check "p1" "svc.googleapis.com" "fn" true w3miss).1 = .ok true ∧
    checkAPIEnablementCache (check "p1" "svc.googleapis.com" "fn" true w3miss).2
      "p1" "svc.googleapis.com" = true := by
  have hhit := ( claim3_theorem "p1" "svc.googleapis.com" "svc.googleapis.com" "fn" true
    w3hit (by decide)).1 (by decide)
  have hmiss := ( claim3_theorem "p1" "svc.googleapis.com" "svc.googleapis.com" "fn" true
    w3miss (by decide)).2 (by decide) "ENABLED" [] rfl
  exact ⟨hhit, by rw [hmiss.1]; decide, by rw [hmiss.2.2.1]; decide⟩

/-- Claim C5, amended: a full URL whose scheme starts with http and whose
extracted hostname does not itself start with http is interchangeable with the
bare hostname: check behaves identically on both forms. The restriction on
the hostname is forced by the counterexample below: a bare hostname that
starts with http is itself treated as a URL and fails to parse. -/
theorem claim5_theorem (p u h pre : String) (s : Bool) (w : World)
    (hu : strStartsWith u "http" = true)
    (hp : parseURLHostname u = some h)
    (hh : strStartsWith h "http" = false) :
    check p u pre s w = check p h pre s w := by
  rw [check_normalized p u h pre s w (normalize_url u h hu hp),
      check_normalized p h h pre s w (normalize_plain h hh)]

def w5cex : World := ⟨[(("p1", "httpx.googleapis.com"), true)], [], [], [], [], [], [], []⟩

/-- Claim C5, counterexample: for the full URL https://httpx.googleapis.com/
and its corresponding bare hostname httpx.googleapis.com the two forms do not
behave identically: the URL form resolves to the cached hostname and returns
true, while the bare form starts with http, is re-parsed as a URL and throws a
URL-parsing error. -/
theorem claim5_cex :
    parseURLHostname "https://httpx.googleapis.com/" = some "httpx.googleapis.com" ∧
    check "p1" "https://httpx.googleapis.com/" "pre" true w5cex = (.ok true, w5cex) ∧
    check "p1" "httpx.googleapis.com" "pre" true w5cex =
      (.error (.urlParse "httpx.googleapis.com"), w5cex) ∧
    check "p1" "https://httpx.googleapis.com/" "pre" true w5cex ≠
      check "p1" "httpx.googleapis.com" "pre" true w5cex := by
  refine ⟨by decide, by decide, by decide, by decide⟩

def w5wit : World := ⟨[(("p1", "foo.googleapis.com"), true)], [], [], [], [], [], [], []⟩

theorem claim5_witness :
    check "p1" "https://foo.googleapis.com/path" "pre" true w5wit =
      check "p1" "foo.googleapis.com" "pre" true w5wit :=
  claim5_theorem "p1" "https://foo.googleapis.com/path" "foo.googleapis.com" "pre"
    true w5wit (by decide) (by decide) (by decide)

/-- Claim C6: best_effort_ensure returns normally on every input and every
outcome of the underlying ensure call; when ensure fails with any error, the
failure is downgraded to the debug log line. -/
theorem claim6_theorem (p u pre : String) (s : Bool) (w : World) :
    (∃ w', bestEffortEnsure p u pre s w = (.ok (), w')) ∧
    (∀ e w1, ensure p u pre s w = (.error e, w1) →
      bestEffortEnsure p u pre s w =
        (.ok (), addLog "debug" ("Unable to check that " ++ u ++ " is enabled on " ++ p ++
          ". Calls to it will fail if it is not enabled") w1)) := by
  unfold bestEffortEnsure
  rcases hen : ensure p u pre s w with ⟨r, w1⟩
  cases r with
  | ok v =>
    cases v
    refine ⟨⟨w1, rfl⟩, ?_⟩
    intro e w2 h2
    exact absurd h2 (by simp)
  | error e =>
    refine ⟨⟨_, rfl⟩, ?_⟩
    intro e2 w2 h2
    simp only [Prod.mk.injEq, Except.error.injEq] at h2
    obtain ⟨he, hw⟩ := h2
    subst he
    subst hw
    rfl

theorem claim6_witness :
    ∃ w', bestEffortEnsure "p1" "svc.googleapis.com" "fn" true emptyWorld = (.ok (), w') :=
  ( claim6_theorem "p1" "svc.googleapis.com" "fn" true emptyWorld).1

/-- Claim C10: a service identifier that starts with http but is not a
parseable absolute URL makes both check and ensure throw the URL-parsing
error with the world untouched, before any cache lookup or network call; in
particular a cached entry for the very same string does not short-circuit. -/
theorem claim10_theorem (p u pre : String) (s : Bool) (w : World)
    (hu : strStartsWith u "http" = true) (hp : parseURLHostname u = none) :
    check p u pre s w = (.error (.urlParse u), w) ∧
    ensure p u pre s w = (.error (.urlParse u), w) := by
  have hn : normalizeApiName u = .error (.urlParse u) := by
    unfold normalizeApiName
    rw [if_pos hu, hp]
  exact ⟨check_normalized_err p u pre s w _ hn, ensure_unfold_err p u pre s w _ hn⟩

def w10wit : World := ⟨[(("p1", "httpbin.googleapis.com"), true)], [], [], [], [], [], [], []⟩

theorem claim10_witness :
    check "p1" "httpbin.googleapis.com" "pre" true w10wit =
      (.error (.urlParse "httpbin.googleapis.com"), w10wit) ∧
    ensure "p1" "httpbin.googleapis.com" "pre" true w10wit =
      (.error (.urlParse "httpbin.googleapis.com"), w10wit) :=
  claim10_theorem "p1" "httpbin.googleapis.com" "pre" true w10wit (by decide) (by decide)

theorem check_enableCalls (p u pre : String) (s : Bool) (w : World) :
    (check p u pre s w).2.enableCalls = w.enableCalls := by
  cases hn : normalizeApiName u with
  | error e => rw [check_normalized_err p u pre s w e hn]
  | ok a =>
    rw [check_normalized p u a pre s w hn]
    exact checkNamed_enableCalls p a pre s w

/-- Worlds for the C1 counterexample: the status query answers DISABLED once,
then the enable request succeeds. -/
def w1cex : World := ⟨[], [.ok "DISABLED"], [.ok ()], [], [], [], [], []⟩
def w1mid : World :=
  ⟨[], [], [.ok ()], [(("p1", "svc.googleapis.com"), .ok "DISABLED")], [], [], [], []⟩

/-- Claim C1, counterexample: running ensure where the only status query ever
issued reports DISABLED and the enable request succeeds ends with the cache
entry for the pair set although no status query ever reported ENABLED: enable
itself writes the cache entry on POST success. -/
theorem claim1_cex :
    (ensure "p1" "svc.googleapis.com" "fn" true w1cex).1 = .ok () ∧
    checkAPIEnablementCache (ensure "p1" "svc.googleapis.com" "fn" true w1cex).2
      "p1" "svc.googleapis.com" = true ∧
    enabledReported (ensure "p1" "svc.googleapis.com" "fn" true w1cex).2
      "p1" "svc.googleapis.com" = false := by
  have hrun1 : ensure "p1" "svc.googleapis.com" "fn" true w1cex =
      enableApiWithRetries "p1" "svc.googleapis.com" "fn" true 0 w1mid := rfl
  have h := enableApiWithRetries_first_ok "p1" "svc.googleapis.com" "fn" true w1mid
    [] rfl (by decide)
  rw [hrun1, h]
  exact ⟨rfl, by decide, by decide⟩

/-- Claim C1, amended: every operation preserves the invariant that each
positive cache entry is justified by the trace, where a justification is
either a status query that reported ENABLED for the pair or a successful
enable request for the pair; the latter disjunct is forced by the
counterexample, since enable caches on POST success without any ENABLED
report. -/
theorem claim1_theorem (p u a pre : String) (s : Bool) (er pr : Nat) (w : World)
    (hj : justified w) :
    justified (check p u pre s w).2 ∧
    justified (enable p a w).2 ∧
    justified (pollCheckEnabled p a pre s er pr w).2 ∧
    justified (enableApiWithRetries p a pre s er w).2 ∧
    justified (ensure p u pre s w).2 ∧
    justified (bestEffortEnsure p u pre s w).2 :=
  ⟨(opOK_check p u pre s w).2.2.2 hj, (opOK_enable p a w).2.2.2 hj,
    ((opOK_pollEnable 66).1 p a pre s er pr w (by omega)).2.2.2 hj,
    ((opOK_pollEnable 66).2 p a pre s er w (by omega)).2.2.2 hj,
    (opOK_ensure p u pre s w).2.2.2 hj, (opOK_bestEffortEnsure p u pre s w).2.2.2 hj⟩

theorem claim1_witness :
    justified (check "p1" "svc.googleapis.com" "fn" true emptyWorld).2 ∧
    justified (enable "p1" "svc.googleapis.com" emptyWorld).2 ∧
    justified (pollCheckEnabled "p1" "svc.googleapis.com" "fn" true 0 0 emptyWorld).2 ∧
    justified (enableApiWithRetries "p1" "svc.googleapis.com" "fn" true 0 emptyWorld).2 ∧
    justified (ensure "p1" "svc.googleapis.com" "fn" true emptyWorld).2 ∧
    justified (bestEffortEnsure "p1" "svc.googleapis.com" "fn" true emptyWorld).2 := by
  have hj : justified emptyWorld := by
    intro p a h
    simp [checkAPIEnablementCache, lookupCache, emptyWorld] at h
  exact claim1_theorem "p1" "svc.googleapis.com" "svc.googleapis.com" "fn" true 0 0
    emptyWorld hj

/-- Claim C4: a permission-denied error from the enable endpoint whose message
matches the service pattern is re-raised as the same error (same status, same
billing marker) with its message rewritten to contain the console library URL
for exactly the captured service and the project id; a permission-denied
error that does not match is re-raised unmodified. The spec presents the
billing and permission-denied error kinds as disjoint, so the error here is
taken to not be a billing error. -/
theorem claim4_theorem (p a : String) (w : World) (e : ErrInfo)
    (q : List (Except ErrInfo Unit))
    (hq : w.enableQueue = Except.error e :: q)
    (hperm : isPermissionError e = true)
    (hbill : isBillingError e = false) :
    (∀ x, apiPermissionDeniedExec e.message = some x →
      (enable p a w).1 = .error (.api { e with message := permissionRewriteMsg x p }) ∧
      occursIn (permissionRewriteMsg x p) (enableApiURI p x) = true) ∧
    (apiPermissionDeniedExec e.message = none →
      (enable p a w).1 = .error (.api e)) := by
  rw [enable_err p a w e q hq]
  constructor
  · intro x hx
    constructor
    · simp [hbill, hperm, hx]
    · simp only [occursIn, permissionRewriteMsg, enableApiURI, bold,
        String.data_append, List.append_assoc]
      exact occursInL_right _ (occursInL_right _ (occursInL_right _ (occursInL_self _)))
  · intro hx
    simp [hbill, hperm, hx]

def e4wit : ErrInfo :=
  ⟨"Permission denied to enable service [foo.googleapis.com]",
    some "PERMISSION_DENIED", false⟩
def w4wit : World := ⟨[], [], [.error e4wit], [], [], [], [], []⟩

theorem claim4_witness :
    (enable "p1" "svc.googleapis.com" w4wit).1 =
      .error (.api { e4wit with
        message := permissionRewriteMsg "foo.googleapis.com" "p1" }) ∧
    occursIn (permissionRewriteMsg "foo.googleapis.com" "p1")
      (enableApiURI "p1" "foo.googleapis.com") = true := by
  have h := ( claim4_theorem "p1" "svc.googleapis.com" w4wit e4wit []
    rfl (by decide) (by decide)).1 "foo.googleapis.com" (by decide)
  exact h

/-- Claim C7: a billing-restriction error from the enable endpoint is raised
as a FirebaseError whose message contains the project id and the upgrade URL,
and the upgrade URL itself contains the project id. -/
theorem claim7_theorem (p a : String) (w : World) (e : ErrInfo)
    (q : List (Except ErrInfo Unit))
    (hq : w.enableQueue = Except.error e :: q)
    (hb : isBillingError e = true) :
    (enable p a w).1 = .error (.firebase (billingErrorMsg p a)) ∧
    occursIn (billingErrorMsg p a) p = true ∧
    occursIn (billingErrorMsg p a)
      ("https://console.firebase.google.com/project/" ++ (p ++ "/usage/details")) = true ∧
    occursIn ("https://console.firebase.google.com/project/" ++ (p ++ "/usage/details"))
      p = true := by
  refine ⟨?_, ?_, ?_, ?_⟩
  · rw [enable_err p a w e q hq]
    simp [hb]
  · simp only [occursIn, billingErrorMsg, bold, String.data_append, List.append_assoc]
    exact occursInL_right _ (occursInL_lead _ _)
  · simp only [occursIn, billingErrorMsg, bold, String.data_append, List.append_assoc]
    exact occursInL_right _ (occursInL_right _ (occursInL_right _ (occursInL_right _
      (occursInL_right _ (occursInL_self _)))))
  · simp only [occursIn, String.data_append, List.append_assoc]
    exact occursInL_right _ (occursInL_lead _ _)

def e7wit : ErrInfo := ⟨"billing account required", none, true⟩
def w7wit : World := ⟨[], [], [.error e7wit], [], [], [], [], []⟩

theorem claim7_witness :
    (enable "p1" "svc.googleapis.com" w7wit).1 =
      .error (.firebase (billingErrorMsg "p1" "svc.googleapis.com")) ∧
    occursIn (billingErrorMsg "p1" "svc.googleapis.com") "p1" = true := by
  have h := claim7_theorem "p1" "svc.googleapis.com" w7wit e7wit [] rfl (by decide)
  exact ⟨h.1, h.2.1⟩

/-- Claim C8: whenever check reports the service enabled (by cache hit or by a
status query answering ENABLED), ensure returns successfully without issuing
any request to the enable endpoint: its enable-call trace is unchanged. -/
theorem claim8_theorem (p u a pre : String) (s : Bool) (w : World)
    (hn : normalizeApiName u = .ok a)
    (hc : (check p a pre s (if (!s) = true then
        addLog pre ("ensuring required API " ++ bold a ++ " is enabled...") w
      else w)).1 = .ok true) :
    ensure p u pre s w =
      (.ok (), (check p a pre s (if (!s) = true then
        addLog pre ("ensuring required API " ++ bold a ++ " is enabled...") w
      else w)).2) ∧
    (ensure p u pre s w).2.enableCalls = w.enableCalls := by
  rw [ensure_unfold p u pre s w a hn]
  rcases hck : check p a pre s (if (!s) = true then
      addLog pre ("ensuring required API " ++ bold a ++ " is enabled...") w
    else w) with ⟨r, w2⟩
  rw [hck] at hc
  have hr : r = .ok true := hc
  subst hr
  have h1 := check_enableCalls p a pre s (if (!s) = true then
      addLog pre ("ensuring required API " ++ bold a ++ " is enabled...") w
    else w)
  rw [hck] at h1
  have h2 : (if (!s) = true then
      addLog pre ("ensuring required API " ++ bold a ++ " is enabled...") w
    else w).enableCalls = w.enableCalls := by
    split <;> rfl
  simp only [hck]
  constructor
  · trivial
  · exact h1.trans h2

def w8wit : World := ⟨[(("p1", "svc.googleapis.com"), true)], [], [], [], [], [], [], []⟩

theorem claim8_witness :
    ensure "p1" "svc.googleapis.com" "fn" true w8wit =
      (.ok (), (check "p1" "svc.googleapis.com" "fn" true (if (!true) = true then
        addLog "fn" ("ensuring required API " ++ bold "svc.googleapis.com" ++
          " is enabled...") w8wit
      else w8wit)).2) ∧
    (ensure "p1" "svc.googleapis.com" "fn" true w8wit).2.enableCalls =
      w8wit.enableCalls :=
  claim8_theorem "p1" "svc.googleapis.com" "svc.googleapis.com" "fn" true w8wit
    (by decide) (by decide)

/-- Claim C9: the only cache write primitive stores exactly the value true
under the (projectId, serviceName) key and leaves every other key unchanged;
under every operation, failing executions included, each key either keeps its
previous binding or maps to true, so no operation ever writes false or
deletes an entry. -/
theorem claim9_theorem (p a p' a' u pre : String) (s : Bool) (er pr : Nat) (w : World) :
    lookupCache (cacheEnabledAPI p a w).cache p a = some true ∧
    ((p', a') ≠ (p, a) →
      lookupCache (cacheEnabledAPI p a w).cache p' a' = lookupCache w.cache p' a') ∧
    cacheLe w.cache (check p u pre s w).2.cache ∧
    cacheLe w.cache (enable p a w).2.cache ∧
    cacheLe w.cache (pollCheckEnabled p a pre s er pr w).2.cache ∧
    cacheLe w.cache (enableApiWithRetries p a pre s er w).2.cache ∧
    cacheLe w.cache (ensure p u pre s w).2.cache ∧
    cacheLe w.cache (bestEffortEnsure p u pre s w).2.cache := by
  refine ⟨?_, ?_, (opOK_check p u pre s w).1, (opOK_enable p a w).1,
    ((opOK_pollEnable 66).1 p a pre s er pr w (by omega)).1,
    ((opOK_pollEnable 66).2 p a pre s er w (by omega)).1,
    (opOK_ensure p u pre s w).1, (opOK_bestEffortEnsure p u pre s w).1⟩
  · rw [lookupCache_set p a p a w]
    simp
  · intro hne
    rw [lookupCache_set p a p' a' w, if_neg hne]

theorem claim9_witness :
    lookupCache (cacheEnabledAPI "p1" "svc.googleapis.com" emptyWorld).cache
      "p1" "svc.googleapis.com" = some true ∧
    lookupCache (cacheEnabledAPI "p1" "svc.googleapis.com" emptyWorld).cache
      "p2" "other.googleapis.com" =
      lookupCache emptyWorld.cache "p2" "other.googleapis.com" ∧
    cacheLe emptyWorld.cache
      (ensure "p1" "svc.googleapis.com" "fn" true emptyWorld).2.cache := by
  have h := claim9_theorem "p1" "svc.googleapis.com" "p2" "other.googleapis.com"
    "svc.googleapis.com" "fn" true 0 0 emptyWorld
  exact ⟨h.1, h.2.1 (by decide), h.2.2.2.2.2.2.1⟩

end EnsureApiEnabled
